import Mathlib

/-!
# Verification of the Tarcart API price pipeline

A shallow embedding of the Tarcart gas-price backend:

* the submission normaliser (`normaliseBody` in the price-submissions route),
* the grade canonicalisation table and the per-station price aggregation of
  the stations listing route,
* the geocode cache-filler (`ensureStationCoords`, in its several revisions
  present in the repository), and
* the two station-listing orderings (`ORDER BY is_home DESC, name ASC` in one
  revision of the route, `ORDER BY id ASC` in the other).

JavaScript numbers are modelled as exact rationals plus a collapsed
non-finite marker; every code path verified here either performs exact
decimal arithmetic on its inputs or only branches on `Number.isFinite`, so
the rational model agrees with IEEE-754 evaluation on all inputs used in the
theorems below (each concrete counterexample input was chosen so that the
floating-point product is exact).  Strings are handled with ASCII semantics
for trimming and lowercasing, matching the data that flows through the API.
-/

namespace Tarcart

/-- A JavaScript number: either a finite value (an exact rational) or a
non-finite value.  `NaN`, `Infinity` and `-Infinity` are collapsed into one
marker because the embedded code only ever branches on `Number.isFinite`,
which is `false` for all three. -/
inductive JSNum where
  | fin (q : ℚ)
  | nonfin
  deriving DecidableEq

/-- JS `Math.round` on a finite number: round to the nearest integer with
halves rounded toward positive infinity. -/
def jsRound (q : ℚ) : ℤ := ⌊q + 1/2⌋

/-- JS whitespace test (ASCII fragment, matching `Char.isWhitespace`). -/
def jsWhitespaceChar (c : Char) : Bool := c.isWhitespace

/-- Strip leading and trailing whitespace from a character list. -/
def jsTrimList (l : List Char) : List Char :=
  List.rdropWhile jsWhitespaceChar (l.dropWhile jsWhitespaceChar)

/-- JS `String.prototype.trim` (ASCII whitespace fragment). -/
def jsTrim (s : String) : String := ⟨jsTrimList s.data⟩

/-- JS `String.prototype.toLowerCase` (basic-latin fragment, matching
`Char.toLower`). -/
def jsToLower (s : String) : String := ⟨s.data.map Char.toLower⟩

/-- All characters in the list are decimal digits. -/
def allDigits (l : List Char) : Bool := l.all (·.isDigit)

/-- Numeric value of a list of decimal digits. -/
def digitsToNat (l : List Char) : ℕ := l.foldl (fun n c => 10 * n + (c.toNat - 48)) 0

/-- Value of a decimal literal `ip.fp`. -/
def decValue (ip fp : List Char) : ℚ :=
  (digitsToNat ip : ℚ) + (digitsToNat fp : ℚ) / (10 : ℚ) ^ fp.length

/-- Parse an unsigned decimal literal: digits, optionally followed by a dot
and further digits, with at least one digit present overall. -/
def parseUnsignedDec (l : List Char) : Option ℚ :=
  let ip := l.takeWhile (·.isDigit)
  let rest := l.dropWhile (·.isDigit)
  match rest with
  | [] => if ip.isEmpty then none else some (digitsToNat ip : ℚ)
  | c :: fp =>
    if c = '.' ∧ allDigits fp ∧ ¬(ip.isEmpty ∧ fp.isEmpty) then some (decValue ip fp)
    else none

/-- Parse an optionally signed decimal literal. -/
def parseSignedDec (l : List Char) : Option ℚ :=
  match l with
  | '-' :: rest => (parseUnsignedDec rest).map (fun q => -q)
  | '+' :: rest => parseUnsignedDec rest
  | _ => parseUnsignedDec l

/-- JS `Number(string)` restricted to decimal literals: the argument is
trimmed, the empty string converts to `0`, a (signed) decimal literal
converts to its value, and anything else converts to `NaN`.  (The exotic JS
forms — exponents, hex, `"Infinity"` — do not occur in the payloads treated
by the theorems below and are mapped to `NaN` by this model.) -/
def jsNumberOfString (s : String) : JSNum :=
  let t := jsTrimList s.data
  if t.isEmpty then .fin 0
  else
    match parseSignedDec t with
    | some q => .fin q
    | none => .nonfin

/-! ## The submission normaliser (`normaliseBody`) -/

/-- A payload field read through a `typeof x === "number"` test: absent
(`null`/`undefined`), a number, or present with some other type. -/
inductive NumField where
  | missing
  | num (x : JSNum)
  | nonNum
  deriving DecidableEq

/-- The station-id field (`body.station_id ?? body.stationId`, already
merged): absent, a number, a string, or a value of some other type (which the
code sends to the `null` branch just like absence). -/
inductive IdField where
  | missing
  | num (x : JSNum)
  | str (s : String)
  | other
  deriving DecidableEq

/-- One element of the `submissions` array.  `grade` is the field after the
`.toString()` coercion (`none` = `null`/`undefined`). -/
structure SubEntry where
  grade : Option String
  price_cents : NumField
  price : NumField
  deriving DecidableEq

/-- The request body, with exactly the fields `normaliseBody` reads.  The
`submissions` field is `some l` when it holds an array (a `none` element is a
falsy element, skipped by `if (!sub) continue`); string-valued fields are
taken after their `.toString()` coercion. -/
structure Body where
  station_id : IdField
  station_name : Option String
  station_address : Option String
  notes : Option String
  submitter_name : Option String
  submissions : Option (List (Option SubEntry))
  grade : Option String
  price_cents : NumField
  price : NumField
  deriving DecidableEq

/-- Station identity resolution (submissions route, lines 251–257):
a number is kept as is; a string with non-empty trim is passed to `Number`;
everything else resolves to `null`. -/
def resolveStationId (f : IdField) : Option JSNum :=
  match f with
  | .num x => some x
  | .str s => if jsTrim s ≠ "" then some (jsNumberOfString s) else none
  | _ => none

/-- The pattern `(x ?? "").trim() || null`. -/
def trimToNull (o : Option String) : Option String :=
  let t := jsTrim (o.getD "")
  if t = "" then none else some t

/-- The per-request values computed before either shape is processed
(lines 249–267). -/
structure Ctx where
  stationId : Option JSNum
  stationName : Option String
  stationAddress : Option String
  notes : Option String
  submitterName : Option String
  defaultGrade : Option String
  deriving DecidableEq

/-- Build the per-request context from the body. -/
def mkCtx (b : Body) : Ctx :=
  { stationId := resolveStationId b.station_id
    stationName := trimToNull b.station_name
    stationAddress := trimToNull b.station_address
    notes := trimToNull b.notes
    submitterName := trimToNull b.submitter_name
    defaultGrade := b.grade }

/-- A normalised submission row (`NormalisedSubmissionRow`). -/
structure NormRow where
  stationId : Option JSNum
  stationName : Option String
  stationAddress : Option String
  grade : String
  priceMills : ℚ
  notes : Option String
  submitterName : Option String
  deriving DecidableEq

/-- The price selection used by both payload shapes (lines 277–289 and
307–317): `price_cents` is taken verbatim when it is a number, else
`Math.round(price * 1000)` when `price` is a number, else null. -/
def computeMills (pc pr : NumField) : Option JSNum :=
  match pc with
  | .num x => some x
  | _ =>
    match pr with
    | .num (.fin q) => some (.fin ((jsRound (q * 1000) : ℤ) : ℚ))
    | .num .nonfin => some .nonfin
    | _ => none

/-- The gate `priceMills == null || !Number.isFinite(priceMills)`:
yields the finite value or nothing. -/
def finiteVal : Option JSNum → Option ℚ
  | some (.fin q) => some q
  | _ => none

/-- One iteration of the `for (const sub of body.submissions)` loop
(lines 271–300): grade from the entry with payload-level fallback, trimmed,
must be non-empty; price through `computeMills` and the finiteness gate. -/
def entryRow (c : Ctx) (e : SubEntry) : Option NormRow :=
  let grade := jsTrim ((e.grade <|> c.defaultGrade).getD "")
  if grade = "" then none
  else
    match finiteVal (computeMills e.price_cents e.price) with
    | none => none
    | some q =>
      some { stationId := c.stationId
             stationName := c.stationName
             stationAddress := c.stationAddress
             grade := grade
             priceMills := q
             notes := c.notes
             submitterName := c.submitterName }

/-- The legacy single-grade fallback (lines 305–331). -/
def legacyRows (c : Ctx) (b : Body) : List NormRow :=
  let legacyGrade := jsTrim (b.grade.getD "")
  if legacyGrade ≠ "" then
    match finiteVal (computeMills b.price_cents b.price) with
    | some q =>
      [{ stationId := c.stationId
         stationName := c.stationName
         stationAddress := c.stationAddress
         grade := legacyGrade
         priceMills := q
         notes := c.notes
         submitterName := c.submitterName }]
    | none => []
  else []

/-- `normaliseBody` (lines 248–332): the array shape is used exactly when
`submissions` is a non-empty array, and then the function returns from inside
that branch; otherwise the legacy shape applies. -/
def normaliseBody (b : Body) : List NormRow :=
  let c := mkCtx b
  match b.submissions with
  | some (e :: rest) => (e :: rest).filterMap (fun oe => oe.bind (entryRow c))
  | _ => legacyRows c b

/-- The POST /api/price-submissions response status (lines 336–389): 400 when
no usable rows were extracted, 201 otherwise. -/
def postStatus (b : Body) : ℕ :=
  if normaliseBody b = [] then 400 else 201

/-- Modelled from the spec's wording of the rounding rule: round to the
nearest integer with halves rounded away from zero (mirror-symmetric around
zero).  Used only to compare the spec's claimed rounding against the code's
`Math.round`. -/
def roundHalfAwayFromZero (q : ℚ) : ℤ :=
  if 0 ≤ q then ⌊q + 1/2⌋ else -⌊-q + 1/2⌋

/-! ## Grade canonicalisation (stations route, lines 77–91) -/

/-- The inline grade-canonicalisation table of the stations listing route. -/
def canonicaliseGrade (s : String) : String :=
  let g := jsToLower s
  if g = "regular" ∨ g = "87" ∨ g = "unleaded" then "87"
  else if g = "midgrade" ∨ g = "89" then "89"
  else if g = "premium" ∨ g = "93" ∨ g = "supreme" then "93"
  else if g = "diesel" ∨ g = "d" then "diesel"
  else g

/-! ## Price aggregation (stations route, lines 41–93) -/

/-- A row of the `price_submissions` table as the aggregation query reads it. -/
structure PriceRow where
  station_id : Option ℤ
  grade : Option String
  price_cents : Option ℚ
  status : String
  reviewed_at : Option ℤ
  created_at : ℤ
  deriving DecidableEq

/-- A row surviving the `WHERE` clause, with the non-null fields projected out
(the timestamps are kept only for the `ORDER BY`). -/
structure ApprovedRow where
  sid : ℤ
  grade : String
  price : ℚ
  reviewed : Option ℤ
  created : ℤ
  deriving DecidableEq

/-- The filter `WHERE status = 'approved' AND station_id IS NOT NULL AND
grade IS NOT NULL AND price_cents IS NOT NULL`. -/
def toApproved (r : PriceRow) : Option ApprovedRow :=
  if r.status = "approved" then
    match r.station_id, r.grade, r.price_cents with
    | some sid, some g, some p => some ⟨sid, g, p, r.reviewed_at, r.created_at⟩
    | _, _, _ => none
  else none

/-- A nullable timestamp with SQL null ranking below every value (the effect
of `DESC NULLS LAST` is that null counts as oldest). -/
def revKey (o : Option ℤ) : WithBot ℤ :=
  match o with
  | none => ⊥
  | some t => (t : WithBot ℤ)

/-- Sort key of `ORDER BY station_id, grade, reviewed_at DESC NULLS LAST,
created_at DESC`: ascending station id and grade, then descending (via the
order dual) review timestamp with null smallest, then descending creation
timestamp.  Postgres text comparison is modelled by the lexicographic
codepoint order on the character list (exact for ASCII data under the C
collation). -/
def rowKey (r : ApprovedRow) : ℤ ×ₗ (List Char ×ₗ ((WithBot ℤ)ᵒᵈ ×ₗ ℤᵒᵈ)) :=
  toLex (r.sid, toLex (r.grade.data, toLex (OrderDual.toDual (revKey r.reviewed), OrderDual.toDual r.created)))

/-- The total order implementing the `ORDER BY`. -/
def rowLe (a b : ApprovedRow) : Prop := rowKey a ≤ rowKey b

instance : DecidableRel rowLe := fun a b =>
  inferInstanceAs (Decidable (rowKey a ≤ rowKey b))

instance : IsTotal ApprovedRow rowLe := ⟨fun a b => le_total (rowKey a) (rowKey b)⟩

instance : IsTrans ApprovedRow rowLe := ⟨fun _ _ _ hab hbc => le_trans hab hbc⟩

/-- The `DISTINCT ON (station_id, grade)` deduplication key. -/
def groupKey (r : ApprovedRow) : ℤ × String := (r.sid, r.grade)

/-- Keep the first row of each `(station_id, grade)` group, in order. -/
def dedupByKeyAux (seen : List (ℤ × String)) : List ApprovedRow → List ApprovedRow
  | [] => []
  | r :: rest =>
    if groupKey r ∈ seen then dedupByKeyAux seen rest
    else r :: dedupByKeyAux (groupKey r :: seen) rest

/-- The aggregation query: filter, order, keep the first row per
`(station_id, grade)` pair. -/
def distinctLatest (rows : List PriceRow) : List ApprovedRow :=
  dedupByKeyAux [] (List.insertionSort rowLe (rows.filterMap toApproved))

/-- Assignment `obj[k] = v` on a JS object modelled as an association list: an
existing key keeps its position and receives the new value, a new key is
appended. -/
def jsObjSet (m : List (String × ℚ)) (k : String) (v : ℚ) : List (String × ℚ) :=
  if k ∈ m.map Prod.fst then m.map (fun p => if p.1 = k then (k, v) else p)
  else m ++ [(k, v)]

/-- A key JS treats as an array index: the canonical decimal form of a natural
number, i.e. non-empty, all digits, and no leading zero except for `"0"`
itself (the grade keys in play are far below the 2^32 bound). -/
def integerLikeKey (s : String) : Bool :=
  match s.data with
  | [] => false
  | c :: rest => (c :: rest).all (·.isDigit) && (c != '0' || rest.isEmpty)

/-- Numeric value used to order array-index keys. -/
def indexKeyVal (p : String × ℚ) : ℕ := digitsToNat p.1.data

/-- JS `Object.entries`: array-index keys first in ascending numeric order,
then the remaining string keys in insertion order. -/
def jsObjEntries (m : List (String × ℚ)) : List (String × ℚ) :=
  List.insertionSort (fun p q => indexKeyVal p ≤ indexKeyVal q)
      (m.filter (fun p => integerLikeKey p.1))
    ++ m.filter (fun p => !integerLikeKey p.1)

/-- The common shape of the two object-building loops: fold a list into a JS
object, setting `key x := val x` for every element that passes the guard. -/
def objFold {α : Type} (p : α → Prop) [DecidablePred p] (key : α → String) (val : α → ℚ)
    (m0 : List (String × ℚ)) (l : List α) : List (String × ℚ) :=
  l.foldl (fun m x => if p x then jsObjSet m (key x) (val x) else m) m0

/-- The `pricesByStation` loop (lines 59–67), restricted to one station (rows
of different stations write into disjoint inner objects): rows with a falsy
station id (`!sid`, i.e. 0) or a falsy grade (the empty string) are skipped,
the key is the lowercased grade, and the value is `Number(price_cents)`,
modelled as the price itself. -/
def buildStationPrices (distinct : List ApprovedRow) (sid : ℤ) : List (String × ℚ) :=
  objFold (fun r => r.sid = sid ∧ r.sid ≠ 0 ∧ r.grade ≠ "")
    (fun r => jsToLower r.grade) (fun r => r.price) [] distinct

/-- The canonicalisation loop (lines 74–91): fold the entries of the raw
per-station map into the `normalized` object, last write winning per
canonical grade. -/
def normalizeStationPrices (entries : List (String × ℚ)) : List (String × ℚ) :=
  objFold (fun _ => True) (fun e => canonicaliseGrade e.1) (fun e => e.2) [] entries

/-- The `prices_cents` object served for one station. -/
def stationPricesCents (rows : List PriceRow) (sid : ℤ) : List (String × ℚ) :=
  normalizeStationPrices (jsObjEntries (buildStationPrices (distinctLatest rows) sid))

/-- Recency key for the spec's notion of "latest": review timestamp first
(null oldest), creation timestamp second. -/
def laterKey (r : ApprovedRow) : (WithBot ℤ) ×ₗ ℤ := toLex (revKey r.reviewed, r.created)

/-! ## Stations and the geocode cache-filler -/

/-- A stations-table row (`StationRow`). -/
structure Station where
  id : ℤ
  name : String
  brand : Option String
  address : Option String
  city : Option String
  state : Option String
  latitude : Option ℚ
  longitude : Option ℚ
  is_home : Option Bool
  deriving DecidableEq

/-- A coordinate pair returned by the external geocoder. -/
structure Coords where
  lat : ℚ
  lng : ℚ
  deriving DecidableEq

/-- Outcome of an awaited external call: a value, or a thrown exception. -/
inductive ExtCall (α : Type) where
  | ok (a : α)
  | exn
  deriving DecidableEq

/-- Result of one cache-filler invocation, instrumented with the address sent
to the external geocoder (if any call was made) and whether a DB write was
attempted. -/
structure GeoResult where
  station : Station
  lookupArg : Option String
  persisted : Bool
  deriving DecidableEq

/-- `[station.address, station.city, station.state].filter(Boolean)`: keep
the fields that are present and truthy (non-empty). -/
def addressParts (s : Station) : List String :=
  ([s.address, s.city, s.state].filterMap id).filter (fun t => t ≠ "")

/-- `ensureStationCoords`, first geocoding.ts revision (part_000 lines
67–128): the DB write has its own try/catch, so a persistence failure is
logged and the enriched copy is still returned (the result does not depend on
the `persist` outcome at all).  In this revision `geocodeAddress` catches its
own fetch errors, so the lookup is modelled as returning an optional pair. -/
def ensureStationCoords_v0 (lookup : String → Option Coords) (_persist : ExtCall Unit)
    (s : Station) : GeoResult :=
  if s.latitude.isSome ∧ s.longitude.isSome then ⟨s, none, false⟩
  else if addressParts s = [] then ⟨s, none, false⟩
  else
    let fullAddress := String.intercalate ", " (addressParts s)
    match lookup fullAddress with
    | none => ⟨s, some fullAddress, false⟩
    | some c =>
      ⟨{ s with latitude := some c.lat, longitude := some c.lng }, some fullAddress, true⟩

/-- `ensureStationCoords`, later geocoding.ts revisions (part_001 lines 45–82
and part_000 lines 516–547, structurally identical): the lookup and the DB
write share one try/catch whose handler returns the original station, so a
persistence failure yields the un-enriched station.  In these revisions
`geocodeAddress` does not catch fetch errors, so the lookup itself may
throw. -/
def ensureStationCoords_v1 (lookup : String → ExtCall (Option Coords))
    (persist : ExtCall Unit) (s : Station) : GeoResult :=
  if s.latitude.isSome ∧ s.longitude.isSome then ⟨s, none, false⟩
  else if addressParts s = [] then ⟨s, none, false⟩
  else
    let fullAddress := String.intercalate ", " (addressParts s)
    match lookup fullAddress with
    | .exn => ⟨s, some fullAddress, false⟩
    | .ok none => ⟨s, some fullAddress, false⟩
    | .ok (some c) =>
      match persist with
      | .exn => ⟨s, some fullAddress, true⟩
      | .ok _ =>
        ⟨{ s with latitude := some c.lat, longitude := some c.lng }, some fullAddress, true⟩

/-- The inline cache-filling step of the src/stations.ts listing route (lines
96–127): geocoding happens only when both coordinates are missing and all
three of address, city, state are truthy; the coordinates are written into
the in-memory station before the DB write, and the try/catch wraps lookup and
write together, so a write failure still leaves the enriched in-memory
station. -/
def inlineGeocodeStep (lookup : String → ExtCall (Option Coords))
    (_persist : ExtCall Unit) (s : Station) : GeoResult :=
  match s.address, s.city, s.state with
  | some a, some b, some c =>
    if s.latitude = none ∧ s.longitude = none ∧ a ≠ "" ∧ b ≠ "" ∧ c ≠ "" then
      let fullAddress := a ++ ", " ++ b ++ ", " ++ c
      match lookup fullAddress with
      | .exn => ⟨s, some fullAddress, false⟩
      | .ok none => ⟨s, some fullAddress, false⟩
      | .ok (some co) =>
        ⟨{ s with latitude := some co.lat, longitude := some co.lng }, some fullAddress, true⟩
    else ⟨s, none, false⟩
  | _, _, _ => ⟨s, none, false⟩

/-! ## The two station-listing orderings -/

/-- Rank of the `is_home` flag under `ORDER BY is_home DESC`: Postgres places
nulls first on a descending key, then true, then false. -/
def homeRank (o : Option Bool) : ℕ :=
  match o with
  | none => 0
  | some true => 1
  | some false => 2

/-- The `ORDER BY is_home DESC, name ASC` ordering of the routes/stations.ts
revision (part_000 lines 165–188).  Postgres text comparison is modelled by
the codepoint order on strings (exact for ASCII data under the C collation). -/
def stationLe (a b : Station) : Prop :=
  toLex (homeRank a.is_home, a.name.data) ≤ toLex (homeRank b.is_home, b.name.data)

instance : DecidableRel stationLe := fun a b =>
  inferInstanceAs (Decidable (toLex (homeRank a.is_home, a.name.data) ≤ toLex (homeRank b.is_home, b.name.data)))

instance : IsTotal Station stationLe := ⟨fun _ _ => le_total _ _⟩

instance : IsTrans Station stationLe := ⟨fun _ _ _ h h' => le_trans h h'⟩

/-- The `GET /api/stations` row order of the routes/stations.ts revision. -/
def listStationsOrdered (l : List Station) : List Station := List.insertionSort stationLe l

/-- The `ORDER BY id ASC` ordering of the src/stations.ts revision (lines
33–37). -/
def stationIdLe (a b : Station) : Prop := a.id ≤ b.id

instance : DecidableRel stationIdLe := fun a b => inferInstanceAs (Decidable (a.id ≤ b.id))

instance : IsTotal Station stationIdLe := ⟨fun _ _ => le_total _ _⟩

instance : IsTrans Station stationIdLe := ⟨fun _ _ _ h h' => le_trans h h'⟩

/-- The `GET /api/stations` row order of the src/stations.ts revision. -/
def listStationsById (l : List Station) : List Station := List.insertionSort stationIdLe l

/-! ## String lemmas -/

theorem dropWhile_prefix_eq {α : Type} {p : α → Bool} {l m : List α}
    (hpre : m <+: l.dropWhile p) : m.dropWhile p = m := by
  cases m with
  | nil => rfl
  | cons x xs =>
    obtain ⟨t, ht⟩ := hpre
    have hx : p x = false := by
      by_cases hpx : p x
      · exfalso
        have hidem : List.dropWhile p (List.dropWhile p l) = List.dropWhile p l :=
          List.dropWhile_idempotent p l
        rw [← ht, List.cons_append, List.dropWhile_cons_of_pos hpx] at hidem
        have hlen : (List.dropWhile p (xs ++ t)).length ≤ (xs ++ t).length :=
          (List.dropWhile_sublist p).length_le
        have hlen2 := congrArg List.length hidem
        simp only [List.length_cons, List.length_append] at hlen hlen2
        omega
      · simpa using hpx
    exact List.dropWhile_cons_of_neg (by simp [hx])

theorem jsTrimList_idem (l : List Char) : jsTrimList (jsTrimList l) = jsTrimList l := by
  unfold jsTrimList
  rw [dropWhile_prefix_eq (List.rdropWhile_prefix jsWhitespaceChar (l.dropWhile jsWhitespaceChar)),
    List.rdropWhile_idempotent]

theorem jsTrim_idem (s : String) : jsTrim (jsTrim s) = jsTrim s :=
  congrArg String.mk (jsTrimList_idem s.data)

theorem char_toNat_ofNat {n : ℕ} (h : n.isValidChar) : (Char.ofNat n).toNat = n := by
  simp only [Char.ofNat, dif_pos h, Char.ofNatAux, Char.toNat]
  rfl

theorem toLower_toNat_of_upper {c : Char} (h : c.toNat ≥ 65 ∧ c.toNat ≤ 90) :
    (Char.toLower c).toNat = c.toNat + 32 := by
  have hv : (c.toNat + 32).isValidChar := Or.inl (by omega)
  unfold Char.toLower
  rw [if_pos h]
  exact char_toNat_ofNat hv

theorem toLower_of_not_upper {c : Char} (h : ¬(c.toNat ≥ 65 ∧ c.toNat ≤ 90)) :
    Char.toLower c = c := by
  unfold Char.toLower
  rw [if_neg h]

theorem charToLower_idem (c : Char) : (Char.toLower c).toLower = Char.toLower c := by
  by_cases h : c.toNat ≥ 65 ∧ c.toNat ≤ 90
  · have h1 : (Char.toLower c).toNat = c.toNat + 32 := toLower_toNat_of_upper h
    exact toLower_of_not_upper (by omega)
  · have e : Char.toLower c = c := toLower_of_not_upper h
    rw [e]; exact e

theorem jsToLower_idem (s : String) : jsToLower (jsToLower s) = jsToLower s := by
  refine congrArg String.mk ?_
  show (s.data.map Char.toLower).map Char.toLower = s.data.map Char.toLower
  rw [List.map_map]
  exact List.map_congr_left (fun c _ => charToLower_idem c)

/-! ## Grade canonicalisation lemmas -/

theorem canonicaliseGrade_toLower (s : String) :
    canonicaliseGrade (jsToLower s) = canonicaliseGrade s := by
  simp only [canonicaliseGrade, jsToLower_idem]

theorem canonicaliseGrade_cases (s : String) :
    canonicaliseGrade s = "87" ∨ canonicaliseGrade s = "89" ∨ canonicaliseGrade s = "93" ∨
      canonicaliseGrade s = "diesel" ∨ canonicaliseGrade s = jsToLower s := by
  simp only [canonicaliseGrade]
  split_ifs <;> simp

theorem canonicaliseGrade_idem (s : String) :
    canonicaliseGrade (canonicaliseGrade s) = canonicaliseGrade s := by
  rcases canonicaliseGrade_cases s with h | h | h | h | h <;> rw [h]
  · decide
  · decide
  · decide
  · decide
  · exact (canonicaliseGrade_toLower s).trans h

/-! ## JS object (association list) lemmas -/

theorem jsObjSet_keys_of_mem {m : List (String × ℚ)} {k : String} (v : ℚ)
    (h : k ∈ m.map Prod.fst) : (jsObjSet m k v).map Prod.fst = m.map Prod.fst := by
  unfold jsObjSet
  rw [if_pos h, List.map_map]
  refine List.map_congr_left ?_
  intro p _
  by_cases hp : p.1 = k
  · simp [hp]
  · simp [hp]

theorem jsObjSet_keys_of_not_mem {m : List (String × ℚ)} {k : String} (v : ℚ)
    (h : ¬ k ∈ m.map Prod.fst) : (jsObjSet m k v).map Prod.fst = m.map Prod.fst ++ [k] := by
  unfold jsObjSet
  rw [if_neg h, List.map_append]
  rfl

theorem jsObjSet_keys_nodup {m : List (String × ℚ)} {k : String} (v : ℚ)
    (h : (m.map Prod.fst).Nodup) : ((jsObjSet m k v).map Prod.fst).Nodup := by
  by_cases hk : k ∈ m.map Prod.fst
  · rw [jsObjSet_keys_of_mem v hk]; exact h
  · rw [jsObjSet_keys_of_not_mem v hk]
    simp [List.nodup_append, h, hk]

theorem mem_jsObjSet {m : List (String × ℚ)} {k g : String} {v v' : ℚ}
    (h : (g, v') ∈ jsObjSet m k v) : (g, v') ∈ m ∨ (g = k ∧ v' = v) := by
  unfold jsObjSet at h
  by_cases hk : k ∈ m.map Prod.fst
  · rw [if_pos hk] at h
    obtain ⟨p, hp, he⟩ := List.mem_map.mp h
    by_cases hpk : p.1 = k
    · rw [if_pos hpk] at he
      injection he with h1 h2
      exact Or.inr ⟨h1.symm, h2.symm⟩
    · rw [if_neg hpk] at he
      exact Or.inl (he ▸ hp)
  · rw [if_neg hk] at h
    rcases List.mem_append.mp h with h1 | h1
    · exact Or.inl h1
    · have h2 := List.mem_singleton.mp h1
      injection h2 with h3 h4
      exact Or.inr ⟨h3, h4⟩

theorem key_mem_jsObjSet_self (m : List (String × ℚ)) (k : String) (v : ℚ) :
    k ∈ (jsObjSet m k v).map Prod.fst := by
  by_cases hk : k ∈ m.map Prod.fst
  · rw [jsObjSet_keys_of_mem v hk]; exact hk
  · rw [jsObjSet_keys_of_not_mem v hk]; simp

theorem key_mem_jsObjSet_mono {m : List (String × ℚ)} {k' : String} (k : String) (v : ℚ)
    (h : k' ∈ m.map Prod.fst) : k' ∈ (jsObjSet m k v).map Prod.fst := by
  by_cases hk : k ∈ m.map Prod.fst
  · rwa [jsObjSet_keys_of_mem v hk]
  · rw [jsObjSet_keys_of_not_mem v hk]; exact List.mem_append_left _ h

section FoldHelpers

variable {α : Type} {p : α → Prop} [DecidablePred p] {key : α → String} {val : α → ℚ}

theorem objFold_keys_nodup {l : List α} :
    ∀ {m0 : List (String × ℚ)}, (m0.map Prod.fst).Nodup →
      ((objFold p key val m0 l).map Prod.fst).Nodup := by
  induction l with
  | nil => intro m0 h; exact h
  | cons x xs ih =>
    intro m0 h
    simp only [objFold, List.foldl_cons]
    by_cases hp : p x
    · rw [if_pos hp]; exact ih (jsObjSet_keys_nodup _ h)
    · rw [if_neg hp]; exact ih h

theorem objFold_provenance {l : List α} :
    ∀ {m0 : List (String × ℚ)} {g : String} {v : ℚ}, (g, v) ∈ objFold p key val m0 l →
      (g, v) ∈ m0 ∨ ∃ x ∈ l, p x ∧ key x = g ∧ val x = v := by
  induction l with
  | nil => intro m0 g v h; exact Or.inl h
  | cons x xs ih =>
    intro m0 g v h
    simp only [objFold, List.foldl_cons] at h
    by_cases hp : p x
    · rw [if_pos hp] at h
      rcases ih h with h1 | ⟨y, hy, hpy, hk, hv⟩
      · rcases mem_jsObjSet h1 with h2 | ⟨hk, hv⟩
        · exact Or.inl h2
        · exact Or.inr ⟨x, List.mem_cons_self x xs, hp, hk.symm, hv.symm⟩
      · exact Or.inr ⟨y, List.mem_cons_of_mem _ hy, hpy, hk, hv⟩
    · rw [if_neg hp] at h
      rcases ih h with h1 | ⟨y, hy, hpy, hk, hv⟩
      · exact Or.inl h1
      · exact Or.inr ⟨y, List.mem_cons_of_mem _ hy, hpy, hk, hv⟩

theorem objFold_key_mono {l : List α} :
    ∀ {m0 : List (String × ℚ)} {k : String}, k ∈ m0.map Prod.fst →
      k ∈ (objFold p key val m0 l).map Prod.fst := by
  induction l with
  | nil => intro m0 k h; exact h
  | cons x xs ih =>
    intro m0 k h
    simp only [objFold, List.foldl_cons]
    by_cases hp : p x
    · rw [if_pos hp]; exact ih (key_mem_jsObjSet_mono _ _ h)
    · rw [if_neg hp]; exact ih h

theorem objFold_key_present {l : List α} {x : α} (hx : x ∈ l) (hp : p x) :
    ∀ m0 : List (String × ℚ), key x ∈ (objFold p key val m0 l).map Prod.fst := by
  induction l with
  | nil => cases hx
  | cons y ys ih =>
    intro m0
    simp only [objFold, List.foldl_cons]
    rcases List.mem_cons.mp hx with rfl | hmem
    · rw [if_pos hp]
      exact objFold_key_mono (key_mem_jsObjSet_self m0 (key x) (val x))
    · by_cases hpy : p y
      · rw [if_pos hpy]; exact ih hmem _
      · rw [if_neg hpy]; exact ih hmem _

end FoldHelpers

/-! ## jsObjEntries lemmas -/

theorem mem_of_jsObjEntries {m : List (String × ℚ)} {e : String × ℚ}
    (h : e ∈ jsObjEntries m) : e ∈ m := by
  unfold jsObjEntries at h
  rcases List.mem_append.mp h with h1 | h1
  · exact (List.mem_filter.mp ((List.mem_insertionSort _).mp h1)).1
  · exact (List.mem_filter.mp h1).1

theorem mem_jsObjEntries_of_mem {m : List (String × ℚ)} {e : String × ℚ}
    (h : e ∈ m) : e ∈ jsObjEntries m := by
  unfold jsObjEntries
  by_cases hi : integerLikeKey e.1
  · exact List.mem_append_left _ ((List.mem_insertionSort _).mpr (List.mem_filter.mpr ⟨h, by simp [hi]⟩))
  · exact List.mem_append_right _ (List.mem_filter.mpr ⟨h, by simp [hi]⟩)

theorem key_mem_jsObjEntries {m : List (String × ℚ)} {k : String}
    (h : k ∈ m.map Prod.fst) : k ∈ (jsObjEntries m).map Prod.fst := by
  obtain ⟨e, he, hk⟩ := List.mem_map.mp h
  exact List.mem_map.mpr ⟨e, mem_jsObjEntries_of_mem he, hk⟩

/-! ## DISTINCT ON lemmas -/

theorem mem_dedupByKeyAux {l : List ApprovedRow} :
    ∀ {seen : List (ℤ × String)} {r : ApprovedRow}, r ∈ dedupByKeyAux seen l →
      r ∈ l ∧ groupKey r ∉ seen := by
  induction l with
  | nil => intro seen r h; cases h
  | cons x xs ih =>
    intro seen r h
    unfold dedupByKeyAux at h
    by_cases hk : groupKey x ∈ seen
    · rw [if_pos hk] at h
      obtain ⟨h1, h2⟩ := ih h
      exact ⟨List.mem_cons_of_mem _ h1, h2⟩
    · rw [if_neg hk] at h
      rcases List.mem_cons.mp h with rfl | hmem
      · exact ⟨List.mem_cons_self r xs, hk⟩
      · obtain ⟨h1, h2⟩ := ih hmem
        exact ⟨List.mem_cons_of_mem _ h1, fun hc => h2 (List.mem_cons_of_mem _ hc)⟩

theorem dedupByKeyAux_maximal {l : List ApprovedRow} (hs : List.Sorted rowLe l) :
    ∀ {seen r}, r ∈ dedupByKeyAux seen l → ∀ r' ∈ l, groupKey r' = groupKey r → rowLe r r' := by
  induction l with
  | nil => intro seen r h; cases h
  | cons x xs ih =>
    intro seen r h r' hr' hkey
    have hx : ∀ b ∈ xs, rowLe x b := (List.sorted_cons.mp hs).1
    have hs' : List.Sorted rowLe xs := (List.sorted_cons.mp hs).2
    unfold dedupByKeyAux at h
    by_cases hk : groupKey x ∈ seen
    · rw [if_pos hk] at h
      have hnotin := (mem_dedupByKeyAux h).2
      rcases List.mem_cons.mp hr' with rfl | hmem
      · exact absurd (hkey ▸ hk) hnotin
      · exact ih hs' h r' hmem hkey
    · rw [if_neg hk] at h
      rcases List.mem_cons.mp h with rfl | hmem
      · rcases List.mem_cons.mp hr' with rfl | hmem'
        · exact le_rfl
        · exact hx r' hmem'
      · have hnotin := (mem_dedupByKeyAux hmem).2
        rcases List.mem_cons.mp hr' with rfl | hmem'
        · exfalso
          apply hnotin
          rw [← hkey]
          exact List.mem_cons_self _ _
        · exact ih hs' hmem r' hmem' hkey

theorem dedupByKeyAux_covers {l : List ApprovedRow} {r : ApprovedRow} (hr : r ∈ l) :
    ∀ seen, groupKey r ∈ seen ∨ ∃ r'' ∈ dedupByKeyAux seen l, groupKey r'' = groupKey r := by
  induction l with
  | nil => cases hr
  | cons x xs ih =>
    intro seen
    unfold dedupByKeyAux
    rcases List.mem_cons.mp hr with rfl | hmem
    · by_cases hk : groupKey r ∈ seen
      · exact Or.inl hk
      · rw [if_neg hk]
        exact Or.inr ⟨r, List.mem_cons_self r _, rfl⟩
    · by_cases hk : groupKey x ∈ seen
      · rw [if_pos hk]; exact ih hmem seen
      · rw [if_neg hk]
        rcases ih hmem (groupKey x :: seen) with h1 | ⟨r'', h2, h3⟩
        · rcases List.mem_cons.mp h1 with heq | hin
          · exact Or.inr ⟨x, List.mem_cons_self x _, heq.symm⟩
          · exact Or.inl hin
        · exact Or.inr ⟨r'', List.mem_cons_of_mem _ h2, h3⟩

/-- When the `ORDER BY` ranks `r` before `r'` inside one `(station_id, grade)`
group, `r` is at least as recent as `r'` under the (review, creation)
recency key. -/
theorem laterKey_le_of_rowLe {a b : ApprovedRow} (h : rowLe a b) (hsid : a.sid = b.sid)
    (hgrade : a.grade = b.grade) : laterKey b ≤ laterKey a := by
  unfold rowLe rowKey at h
  rw [Prod.Lex.le_iff] at h
  rcases h with h | ⟨h1, h2⟩
  · exact absurd h (by rw [hsid]; exact lt_irrefl _)
  · rw [Prod.Lex.le_iff] at h2
    rcases h2 with h2 | ⟨h3, h4⟩
    · exact absurd h2 (by rw [hgrade]; exact lt_irrefl _)
    · unfold laterKey
      rw [Prod.Lex.le_iff] at h4 ⊢
      rcases h4 with h4 | ⟨h5, h6⟩
      · exact Or.inl (OrderDual.toDual_lt_toDual.mp h4)
      · exact Or.inr ⟨(OrderDual.toDual_inj.mp h5).symm, OrderDual.toDual_le_toDual.mp h6⟩

/-! ## Claim C2 -/

/-- Claim C2 (amended): for every station the served `prices_cents` map binds
each canonical grade at most once (its key list has no duplicates, first
conjunct) and, whenever a station id and grade key are non-degenerate, at
least once (third conjunct); and every served price is the price of an
approved row of that station that is latest — by review timestamp with null
oldest, then by creation timestamp — among the station's approved rows
carrying the *same raw grade label* (second conjunct).  The original claim's
stronger reading (latest among all rows of the same canonical grade) fails
when several raw labels collapse into one canonical grade; see the
counterexample. -/
theorem aggregation_latest_per_raw_grade :
    (∀ (rows : List PriceRow) (sid : ℤ),
      ((stationPricesCents rows sid).map Prod.fst).Nodup)
    ∧ (∀ (rows : List PriceRow) (sid : ℤ) (g : String) (v : ℚ),
        (g, v) ∈ stationPricesCents rows sid →
        ∃ r, r ∈ rows.filterMap toApproved ∧ r.sid = sid ∧ canonicaliseGrade r.grade = g ∧
          r.price = v ∧
          ∀ r', r' ∈ rows.filterMap toApproved → r'.sid = r.sid → r'.grade = r.grade →
            laterKey r' ≤ laterKey r)
    ∧ (∀ (rows : List PriceRow) (sid : ℤ) (r : ApprovedRow),
        r ∈ rows.filterMap toApproved → r.sid = sid → sid ≠ 0 → r.grade ≠ "" →
        canonicaliseGrade r.grade ∈ (stationPricesCents rows sid).map Prod.fst) := by
  refine ⟨?_, ?_, ?_⟩
  · intro rows sid
    unfold stationPricesCents normalizeStationPrices
    exact objFold_keys_nodup (by simp)
  · intro rows sid g v hmem
    unfold stationPricesCents normalizeStationPrices at hmem
    rcases objFold_provenance hmem with h0 | ⟨e, he, _, hkey, hval⟩
    · cases h0
    have he' : e ∈ buildStationPrices (distinctLatest rows) sid := mem_of_jsObjEntries he
    obtain ⟨g0, v0⟩ := e
    unfold buildStationPrices at he'
    rcases objFold_provenance he' with h0 | ⟨r, hrd, hpr, hrk, hrv⟩
    · cases h0
    obtain ⟨hsid, _, _⟩ := hpr
    have hrs : r ∈ List.insertionSort rowLe (rows.filterMap toApproved) := by
      unfold distinctLatest at hrd
      exact (mem_dedupByKeyAux hrd).1
    have hrf : r ∈ rows.filterMap toApproved := (List.mem_insertionSort _).mp hrs
    refine ⟨r, hrf, hsid, ?_, hrv.trans hval, ?_⟩
    · rw [← hkey, ← hrk, canonicaliseGrade_toLower]
    · intro r' hr'f hr'sid hr'grade
      have hsorted : List.Sorted rowLe (List.insertionSort rowLe (rows.filterMap toApproved)) :=
        List.sorted_insertionSort rowLe _
      have hkeyeq : groupKey r' = groupKey r := by
        unfold groupKey
        rw [hr'sid, hr'grade]
      have hmax : rowLe r r' := by
        unfold distinctLatest at hrd
        exact dedupByKeyAux_maximal hsorted hrd r' ((List.mem_insertionSort _).mpr hr'f) hkeyeq
      exact laterKey_le_of_rowLe hmax hr'sid.symm hr'grade.symm
  · intro rows sid r hrf hsid hsid0 hgr
    have hrs : r ∈ List.insertionSort rowLe (rows.filterMap toApproved) :=
      (List.mem_insertionSort _).mpr hrf
    rcases dedupByKeyAux_covers hrs [] with h0 | ⟨r'', hr'', hkey⟩
    · cases h0
    have heq : r''.sid = r.sid ∧ r''.grade = r.grade := by
      unfold groupKey at hkey
      exact ⟨congrArg Prod.fst hkey, congrArg Prod.snd hkey⟩
    have hkeyb : jsToLower r''.grade ∈ (buildStationPrices (distinctLatest rows) sid).map Prod.fst := by
      unfold buildStationPrices
      refine objFold_key_present ?_ ?_ []
      · unfold distinctLatest
        exact hr''
      · exact ⟨by rw [heq.1, hsid], by rw [heq.1, hsid]; exact hsid0, by rw [heq.2]; exact hgr⟩
    have hkeye := key_mem_jsObjEntries hkeyb
    obtain ⟨e, hee, hek⟩ := List.mem_map.mp hkeye
    have hfin : canonicaliseGrade e.1 ∈
        (objFold (fun _ => True) (fun e : String × ℚ => canonicaliseGrade e.1)
          (fun e => e.2) [] (jsObjEntries (buildStationPrices (distinctLatest rows) sid))).map
          Prod.fst :=
      objFold_key_present hee trivial []
    unfold stationPricesCents normalizeStationPrices
    have : canonicaliseGrade r.grade = canonicaliseGrade e.1 := by
      rw [hek, ← heq.2, canonicaliseGrade_toLower]
    rw [this]
    exact hfin

/-- An approved station-1 row with raw grade `"87"`, price 100, reviewed at
time 10. -/
def cexRow87 : PriceRow := ⟨some 1, some "87", some 100, "approved", some 10, 1⟩

/-- An approved station-1 row with raw grade `"regular"`, price 200, reviewed
earlier, at time 5. -/
def cexRowRegular : PriceRow := ⟨some 1, some "regular", some 200, "approved", some 5, 2⟩

/-- Claim C2 counterexample: station 1 has two approved rows that both
canonicalise to grade `"87"` — raw `"87"` (price 100) reviewed at time 10 and
raw `"regular"` (price 200) reviewed at time 5.  The served map stores 200,
the price of the row with the *older* review timestamp, because `"regular"`
is processed after `"87"` and overwrites it; so the served price is not
always the latest-reviewed approved row of the canonical grade. -/
theorem aggregation_latest_counterexample :
    stationPricesCents [cexRow87, cexRowRegular] 1 = [("87", 200)]
    ∧ toApproved cexRow87 = some ⟨1, "87", 100, some 10, 1⟩
    ∧ toApproved cexRowRegular = some ⟨1, "regular", 200, some 5, 2⟩
    ∧ canonicaliseGrade "87" = "87" ∧ canonicaliseGrade "regular" = "87"
    ∧ revKey (some 5) < revKey (some 10)
    ∧ (100 : ℚ) ≠ 200 :=
  ⟨by decide, by decide, by decide, by decide, by decide, by decide, by decide⟩

/-- Witness for C2: on a station with a single approved row the theorem's
hypotheses hold and it produces the surviving row. -/
theorem aggregation_latest_witness :
    (("87", (100 : ℚ)) ∈ stationPricesCents [cexRow87] 1
      ∧ ∃ r, r ∈ [cexRow87].filterMap toApproved ∧ r.sid = 1 ∧
          canonicaliseGrade r.grade = "87" ∧ r.price = 100 ∧
          ∀ r', r' ∈ [cexRow87].filterMap toApproved → r'.sid = r.sid → r'.grade = r.grade →
            laterKey r' ≤ laterKey r)
    ∧ canonicaliseGrade "87" ∈ (stationPricesCents [cexRow87] 1).map Prod.fst := by
  constructor
  · exact ⟨by decide, aggregation_latest_per_raw_grade.2.1 [cexRow87] 1 "87" 100 (by decide)⟩
  · exact aggregation_latest_per_raw_grade.2.2 [cexRow87] 1 ⟨1, "87", 100, some 10, 1⟩
      (by decide) rfl (by decide) (by decide)

/-! ## Claim C9 -/

/-- Claim C9: grade canonicalisation is a total idempotent function on
strings; it maps exactly per the fixed table, and every other label passes
through lowercased. -/
theorem canonical_grade_table :
    (∀ g, canonicaliseGrade (canonicaliseGrade g) = canonicaliseGrade g)
    ∧ canonicaliseGrade "regular" = "87" ∧ canonicaliseGrade "87" = "87"
    ∧ canonicaliseGrade "unleaded" = "87"
    ∧ canonicaliseGrade "midgrade" = "89" ∧ canonicaliseGrade "89" = "89"
    ∧ canonicaliseGrade "premium" = "93" ∧ canonicaliseGrade "93" = "93"
    ∧ canonicaliseGrade "supreme" = "93"
    ∧ canonicaliseGrade "diesel" = "diesel" ∧ canonicaliseGrade "d" = "diesel"
    ∧ (∀ g, jsToLower g ∉ (["regular", "87", "unleaded", "midgrade", "89",
        "premium", "93", "supreme", "diesel", "d"] : List String) →
        canonicaliseGrade g = jsToLower g) := by
  refine ⟨canonicaliseGrade_idem, by decide, by decide, by decide, by decide, by decide,
    by decide, by decide, by decide, by decide, by decide, ?_⟩
  intro g hg
  have h1 : ¬(jsToLower g = "regular" ∨ jsToLower g = "87" ∨ jsToLower g = "unleaded") := by
    rintro (h | h | h) <;> exact hg (by rw [h]; decide)
  have h2 : ¬(jsToLower g = "midgrade" ∨ jsToLower g = "89") := by
    rintro (h | h) <;> exact hg (by rw [h]; decide)
  have h3 : ¬(jsToLower g = "premium" ∨ jsToLower g = "93" ∨ jsToLower g = "supreme") := by
    rintro (h | h | h) <;> exact hg (by rw [h]; decide)
  have h4 : ¬(jsToLower g = "diesel" ∨ jsToLower g = "d") := by
    rintro (h | h) <;> exact hg (by rw [h]; decide)
  simp only [canonicaliseGrade, if_neg h1, if_neg h2, if_neg h3, if_neg h4]

/-- Witness for C9: a custom label outside the table passes through
lowercased. -/
theorem canonical_grade_table_witness : canonicaliseGrade "E85" = "e85" := by
  have h := canonical_grade_table.2.2.2.2.2.2.2.2.2.2.2 "E85" (by decide)
  rw [h]
  decide

/-! ## Claim C1 -/

/-- Claim C1 (amended): in both payload shapes, a price supplied in dollars
is stored as `Math.round(dollars * 1000)` — rounded to the nearest integer
with halves rounded toward positive infinity, which agrees with the claimed
round-half-away-from-zero on the non-negative range (last conjunct) but not
at negative halves (see counterexample); a price supplied directly in mills
is stored verbatim. -/
theorem price_mills_rounding :
    (∀ (c : Ctx) (e : SubEntry) (row : NormRow) (q : ℚ),
      (e.price_cents = NumField.missing ∨ e.price_cents = NumField.nonNum) →
      e.price = NumField.num (JSNum.fin q) → entryRow c e = some row →
      row.priceMills = ((jsRound (q * 1000) : ℤ) : ℚ))
    ∧ (∀ (c : Ctx) (e : SubEntry) (row : NormRow) (q : ℚ),
        e.price_cents = NumField.num (JSNum.fin q) → entryRow c e = some row →
        row.priceMills = q)
    ∧ (∀ (c : Ctx) (b : Body) (row : NormRow) (q : ℚ),
        (b.price_cents = NumField.missing ∨ b.price_cents = NumField.nonNum) →
        b.price = NumField.num (JSNum.fin q) → row ∈ legacyRows c b →
        row.priceMills = ((jsRound (q * 1000) : ℤ) : ℚ))
    ∧ (∀ (c : Ctx) (b : Body) (row : NormRow) (q : ℚ),
        b.price_cents = NumField.num (JSNum.fin q) → row ∈ legacyRows c b →
        row.priceMills = q)
    ∧ (∀ q : ℚ, 0 ≤ q → jsRound q = roundHalfAwayFromZero q) := by
  have hentry : ∀ (c : Ctx) (e : SubEntry) (row : NormRow) (v : ℚ),
      computeMills e.price_cents e.price = some (JSNum.fin v) → entryRow c e = some row →
      row.priceMills = v := by
    intro c e row v hcm h
    simp only [entryRow, hcm, finiteVal] at h
    by_cases hgr : jsTrim ((e.grade <|> c.defaultGrade).getD "") = ""
    · rw [if_pos hgr] at h; cases h
    · rw [if_neg hgr] at h
      injection h with h
      subst h
      rfl
  have hlegacy : ∀ (c : Ctx) (b : Body) (row : NormRow) (v : ℚ),
      computeMills b.price_cents b.price = some (JSNum.fin v) → row ∈ legacyRows c b →
      row.priceMills = v := by
    intro c b row v hcm h
    simp only [legacyRows, hcm, finiteVal] at h
    by_cases hgr : jsTrim (b.grade.getD "") ≠ ""
    · rw [if_pos hgr] at h
      rw [List.mem_singleton.mp h]
    · rw [if_neg hgr] at h; cases h
  refine ⟨?_, ?_, ?_, ?_, ?_⟩
  · intro c e row q hpc hpr h
    refine hentry c e row _ ?_ h
    rcases hpc with hpc | hpc <;> rw [hpc, hpr] <;> rfl
  · intro c e row q hpc h
    refine hentry c e row _ ?_ h
    rw [hpc]; rfl
  · intro c b row q hpc hpr h
    refine hlegacy c b row _ ?_ h
    rcases hpc with hpc | hpc <;> rw [hpc, hpr] <;> rfl
  · intro c b row q hpc h
    refine hlegacy c b row _ ?_ h
    rw [hpc]; rfl
  · intro q hq
    unfold jsRound roundHalfAwayFromZero
    rw [if_pos hq]

/-- The legacy-shape payload `{grade: "87", price: -0.0005}`.  The
floating-point product `-0.0005 * 1000` is exactly `-0.5`, so the rational
model agrees with the JS evaluation at this input. -/
def cexNegHalfBody : Body :=
  ⟨IdField.missing, none, none, none, none, none, some "87", NumField.missing,
    NumField.num (JSNum.fin (-(1 : ℚ)/2000))⟩

/-- Claim C1 counterexample: for dollars = -0.0005 the code stores
`Math.round(-0.5) = 0` (halves round toward +∞), while
round-half-away-from-zero yields -1, so the claimed rounding rule does not
match the code. -/
theorem price_mills_rounding_counterexample :
    (normaliseBody cexNegHalfBody).map NormRow.priceMills
      = [((jsRound (-(1 : ℚ)/2000 * 1000) : ℤ) : ℚ)]
    ∧ jsRound (-(1 : ℚ)/2000 * 1000) = 0
    ∧ roundHalfAwayFromZero (-(1 : ℚ)/2000 * 1000) = -1
    ∧ (0 : ℤ) ≠ -1 :=
  ⟨rfl, by norm_num [jsRound], by norm_num [roundHalfAwayFromZero], by decide⟩

/-- An empty request context (all optional fields absent). -/
def emptyCtx : Ctx := ⟨none, none, none, none, none, none⟩

/-- Array entry `{grade: "87", price: 4.499}`. -/
def wEntryDollars : SubEntry := ⟨some "87", NumField.missing, NumField.num (JSNum.fin ((4499 : ℚ)/1000))⟩

/-- Array entry `{grade: "89", price_cents: 4799}`. -/
def wEntryMills : SubEntry := ⟨some "89", NumField.num (JSNum.fin 4799), NumField.missing⟩

/-- Row produced from `wEntryDollars`. -/
def wRowDollars : NormRow :=
  ⟨none, none, none, "87", ((jsRound ((4499 : ℚ)/1000 * 1000) : ℤ) : ℚ), none, none⟩

/-- Row produced from `wEntryMills`. -/
def wRowMills : NormRow := ⟨none, none, none, "89", 4799, none, none⟩

/-- Legacy body `{grade: "87", price: 4.499}`. -/
def wBodyDollars : Body :=
  ⟨IdField.missing, none, none, none, none, none, some "87", NumField.missing,
    NumField.num (JSNum.fin ((4499 : ℚ)/1000))⟩

/-- Legacy body `{grade: "89", price_cents: 4799}`. -/
def wBodyMills : Body :=
  ⟨IdField.missing, none, none, none, none, none, some "89",
    NumField.num (JSNum.fin 4799), NumField.missing⟩

/-- Witness for C1: all five conjuncts applied at concrete payloads. -/
theorem price_mills_rounding_witness :
    wRowDollars.priceMills = ((jsRound ((4499 : ℚ)/1000 * 1000) : ℤ) : ℚ)
    ∧ wRowMills.priceMills = 4799
    ∧ wRowDollars.priceMills = ((jsRound ((4499 : ℚ)/1000 * 1000) : ℤ) : ℚ)
    ∧ wRowMills.priceMills = 4799
    ∧ jsRound ((4499 : ℚ)/1000 * 1000) = roundHalfAwayFromZero ((4499 : ℚ)/1000 * 1000) :=
  ⟨price_mills_rounding.1 emptyCtx wEntryDollars wRowDollars ((4499 : ℚ)/1000) (Or.inl rfl) rfl rfl,
   price_mills_rounding.2.1 emptyCtx wEntryMills wRowMills 4799 rfl rfl,
   price_mills_rounding.2.2.1 emptyCtx wBodyDollars wRowDollars ((4499 : ℚ)/1000)
     (Or.inl rfl) rfl (List.mem_singleton.mpr rfl),
   price_mills_rounding.2.2.2.1 emptyCtx wBodyMills wRowMills 4799 rfl
     (List.mem_singleton.mpr rfl),
   price_mills_rounding.2.2.2.2 ((4499 : ℚ)/1000 * 1000) (by norm_num)⟩

/-! ## Claim C3 -/

/-- Inversion for a successful array-entry normalisation. -/
theorem entryRow_inv {c : Ctx} {e : SubEntry} {row : NormRow}
    (h : entryRow c e = some row) :
    row.grade = jsTrim ((e.grade <|> c.defaultGrade).getD "") ∧ row.grade ≠ "" ∧
      finiteVal (computeMills e.price_cents e.price) = some row.priceMills := by
  simp only [entryRow] at h
  by_cases hgr : jsTrim ((e.grade <|> c.defaultGrade).getD "") = ""
  · rw [if_pos hgr] at h; cases h
  · rw [if_neg hgr] at h
    cases hcm : finiteVal (computeMills e.price_cents e.price) with
    | none => rw [hcm] at h; cases h
    | some v =>
      rw [hcm] at h
      injection h with h
      subst h
      exact ⟨rfl, hgr, rfl⟩

/-- Inversion for a successful legacy normalisation. -/
theorem legacyRows_inv {c : Ctx} {b : Body} {row : NormRow}
    (h : row ∈ legacyRows c b) :
    row.grade = jsTrim (b.grade.getD "") ∧ row.grade ≠ "" ∧
      finiteVal (computeMills b.price_cents b.price) = some row.priceMills := by
  simp only [legacyRows] at h
  by_cases hgr : jsTrim (b.grade.getD "") ≠ ""
  · rw [if_pos hgr] at h
    cases hcm : finiteVal (computeMills b.price_cents b.price) with
    | none => rw [hcm] at h; cases h
    | some v =>
      rw [hcm] at h
      rw [List.mem_singleton.mp h]
      exact ⟨rfl, hgr, rfl⟩
  · rw [if_neg hgr] at h; cases h

/-- The `price_cents`-style field, when it is a number, is an integer. -/
def pcIntOnly (f : NumField) : Prop :=
  ∀ q : ℚ, f = NumField.num (JSNum.fin q) → q.den = 1

/-- Every directly-supplied mills field in the payload is an integer. -/
def bodyIntMills (b : Body) : Prop :=
  pcIntOnly b.price_cents ∧
    ∀ l, b.submissions = some l → ∀ oe ∈ l, ∀ e : SubEntry, oe = some e →
      pcIntOnly e.price_cents

/-- A price that survives the finiteness gate is an integer, provided any
verbatim mills value was an integer. -/
theorem mills_int {pc pr : NumField} {v : ℚ}
    (h : finiteVal (computeMills pc pr) = some v) (hpc : pcIntOnly pc) :
    ∃ n : ℤ, v = (n : ℚ) := by
  cases pc with
  | num x =>
    cases x with
    | fin q =>
      simp only [computeMills, finiteVal] at h
      injection h with h
      subst h
      exact ⟨q.num, (Rat.coe_int_num_of_den_eq_one (hpc q rfl)).symm⟩
    | nonfin => simp only [computeMills, finiteVal] at h; cases h
  | missing =>
    cases pr with
    | num x =>
      cases x with
      | fin q =>
        simp only [computeMills, finiteVal] at h
        injection h with h
        subst h
        exact ⟨jsRound (q * 1000), rfl⟩
      | nonfin => simp only [computeMills, finiteVal] at h; cases h
    | missing => simp only [computeMills, finiteVal] at h; cases h
    | nonNum => simp only [computeMills, finiteVal] at h; cases h
  | nonNum =>
    cases pr with
    | num x =>
      cases x with
      | fin q =>
        simp only [computeMills, finiteVal] at h
        injection h with h
        subst h
        exact ⟨jsRound (q * 1000), rfl⟩
      | nonfin => simp only [computeMills, finiteVal] at h; cases h
    | missing => simp only [computeMills, finiteVal] at h; cases h
    | nonNum => simp only [computeMills, finiteVal] at h; cases h

/-- Claim C3 (amended): every row produced by the normaliser has a non-empty
trimmed grade and a finite price, and the price is an integer whenever every
directly-supplied `price_cents` value in the payload is an integer.  The
original claim's unconditional "finite non-negative integer" fails because a
fractional or negative `price_cents` number is stored verbatim (see
counterexample); finiteness itself is enforced by the `Number.isFinite`
gate, visible here in the `finiteVal` extraction. -/
theorem normaliser_row_invariants :
    ∀ (b : Body) (row : NormRow), row ∈ normaliseBody b →
      row.grade ≠ "" ∧ jsTrim row.grade = row.grade ∧
        (bodyIntMills b → ∃ n : ℤ, row.priceMills = (n : ℚ)) := by
  intro b row h
  unfold normaliseBody at h
  cases hs : b.submissions with
  | none =>
    rw [hs] at h
    obtain ⟨hg, hne, hfin⟩ := legacyRows_inv h
    refine ⟨hne, by rw [hg]; exact jsTrim_idem _, ?_⟩
    intro hint
    exact mills_int hfin hint.1
  | some l =>
    cases l with
    | nil =>
      rw [hs] at h
      obtain ⟨hg, hne, hfin⟩ := legacyRows_inv h
      refine ⟨hne, by rw [hg]; exact jsTrim_idem _, ?_⟩
      intro hint
      exact mills_int hfin hint.1
    | cons e rest =>
      rw [hs] at h
      obtain ⟨oe, hoe, hbind⟩ := List.mem_filterMap.mp h
      obtain ⟨e', hoe', hrow⟩ := Option.bind_eq_some.mp hbind
      obtain ⟨hg, hne, hfin⟩ := entryRow_inv hrow
      refine ⟨hne, by rw [hg]; exact jsTrim_idem _, ?_⟩
      intro hint
      exact mills_int hfin (hint.2 (e :: rest) hs oe hoe e' hoe')

/-- Multi-grade payload whose single entry supplies the fractional mills
value `price_cents: 4.5`. -/
def cexFracBody : Body :=
  ⟨IdField.missing, none, none, none, none,
    some [some ⟨some "87", NumField.num (JSNum.fin ((9 : ℚ)/2)), NumField.missing⟩],
    none, NumField.missing, NumField.missing⟩

/-- Legacy payload supplying the negative mills value `price_cents: -5`. -/
def cexNegBody : Body :=
  ⟨IdField.missing, none, none, none, none, none, some "87",
    NumField.num (JSNum.fin (-5)), NumField.missing⟩

/-- Claim C3 counterexample: `price_cents: 4.5` produces a stored price of
4.5, which is not an integer, and `price_cents: -5` produces a stored price
of -5, which is negative — so "finite non-negative integer" fails for
payloads supplying `price_cents` directly. -/
theorem normaliser_row_invariants_counterexample :
    (normaliseBody cexFracBody).map NormRow.priceMills = [(9 : ℚ)/2]
    ∧ ¬(∃ n : ℤ, (9 : ℚ)/2 = (n : ℚ))
    ∧ (normaliseBody cexNegBody).map NormRow.priceMills = [(-5 : ℚ)]
    ∧ ¬(0 : ℚ) ≤ -5 := by
  refine ⟨rfl, ?_, rfl, by norm_num⟩
  rintro ⟨n, hn⟩
  have h9 : (9 : ℚ) = 2 * (n : ℚ) := by
    field_simp at hn
    linarith
  have h9' : (9 : ℤ) = 2 * n := by exact_mod_cast h9
  omega

/-- Legacy payload `{grade: "89", price_cents: 4799}`. -/
def wBodyInt : Body :=
  ⟨IdField.missing, none, none, none, none, none, some "89",
    NumField.num (JSNum.fin 4799), NumField.missing⟩

/-- The row `wBodyInt` normalises to. -/
def wRowInt : NormRow := ⟨none, none, none, "89", 4799, none, none⟩

/-- Witness for C3 at a concrete integral payload. -/
theorem normaliser_row_invariants_witness :
    wRowInt.grade ≠ "" ∧ jsTrim wRowInt.grade = wRowInt.grade ∧
      ∃ n : ℤ, wRowInt.priceMills = (n : ℚ) := by
  have h := normaliser_row_invariants wBodyInt wRowInt (by decide)
  refine ⟨h.1, h.2.1, h.2.2 ⟨?_, ?_⟩⟩
  · intro q hq
    injection hq with hq
    injection hq with hq
    subst hq
    decide
  · intro l hl
    cases hl

/-! ## Claim C8 -/

/-- Claim C8 (amended): the normaliser resolves the station-id field to the
number itself when it is a number, to `null` when it is absent, of a
non-string non-number type, or a string that is empty after trimming; a
non-empty string goes through JS `Number`, which yields the numeric value
for a numeric string but `NaN` — not `null` — for a non-numeric string (see
counterexample). -/
theorem station_id_resolution :
    (∀ x, resolveStationId (IdField.num x) = some x)
    ∧ resolveStationId IdField.missing = none
    ∧ resolveStationId IdField.other = none
    ∧ (∀ s, jsTrim s = "" → resolveStationId (IdField.str s) = none)
    ∧ (∀ s q, jsTrim s ≠ "" → jsNumberOfString s = JSNum.fin q →
        resolveStationId (IdField.str s) = some (JSNum.fin q))
    ∧ (∀ s, jsTrim s ≠ "" → jsNumberOfString s = JSNum.nonfin →
        resolveStationId (IdField.str s) = some JSNum.nonfin)
    ∧ (∀ b, (mkCtx b).stationId = resolveStationId b.station_id) := by
  refine ⟨fun x => rfl, rfl, rfl, ?_, ?_, ?_, fun b => rfl⟩
  · intro s hs
    show (if jsTrim s ≠ "" then some (jsNumberOfString s) else none) = none
    rw [if_neg (by simp [hs])]
  · intro s q hs hq
    show (if jsTrim s ≠ "" then some (jsNumberOfString s) else none) = some (JSNum.fin q)
    rw [if_pos hs, hq]
  · intro s hs hq
    show (if jsTrim s ≠ "" then some (jsNumberOfString s) else none) = some JSNum.nonfin
    rw [if_pos hs, hq]

/-- Legacy payload with the non-numeric station id string `"abc"` and a
valid grade/mills pair. -/
def cexAbcBody : Body :=
  ⟨IdField.str "abc", none, none, none, none, none, some "87",
    NumField.num (JSNum.fin 4499), NumField.missing⟩

/-- Claim C8 counterexample: `station_id: "abc"` resolves to `NaN`
(`Number("abc")`), not to the null "no station" reference the claim
requires. -/
theorem station_id_resolution_counterexample :
    (normaliseBody cexAbcBody).map NormRow.stationId = [some JSNum.nonfin]
    ∧ some JSNum.nonfin ≠ (none : Option JSNum)
    ∧ jsNumberOfString "abc" = JSNum.nonfin :=
  ⟨rfl, by decide, by decide⟩

/-- Witness for C8: a numeric string resolves to its value and a whitespace
string resolves to null. -/
theorem station_id_resolution_witness :
    resolveStationId (IdField.str "12") = some (jsNumberOfString "12")
    ∧ jsNumberOfString "12" = JSNum.fin 12
    ∧ resolveStationId (IdField.str " ") = none := by
  have h2 : jsNumberOfString "12" = JSNum.fin 12 := by decide
  exact ⟨station_id_resolution.2.2.2.2.1 "12" 12 (by decide) h2 |>.trans (by rw [h2]),
    h2, station_id_resolution.2.2.2.1 " " (by decide)⟩

/-! ## Claim C10 -/

/-- Claim C10: when the payload carries a non-empty `submissions` array, the
legacy top-level price pair is never consulted — the output is invariant
under the top-level `price`/`price_cents` fields — and if every array entry
is unusable the normaliser returns the empty list and the endpoint answers
400 instead of falling back to the legacy pair. -/
theorem submissions_array_no_legacy_fallback :
    ∀ (b : Body) (l : List (Option SubEntry)) (p pc : NumField),
      b.submissions = some l → l ≠ [] →
      (normaliseBody { b with price := p, price_cents := pc } = normaliseBody b
      ∧ ((∀ oe ∈ l, oe.bind (entryRow (mkCtx b)) = none) →
          normaliseBody b = [] ∧ postStatus b = 400)) := by
  intro b l p pc hs hne
  cases l with
  | nil => exact absurd rfl hne
  | cons e rest =>
    have hs' : ({ b with price := p, price_cents := pc } : Body).submissions
        = some (e :: rest) := hs
    have harr : normaliseBody b
        = (e :: rest).filterMap (fun oe => oe.bind (entryRow (mkCtx b))) := by
      unfold normaliseBody
      rw [hs]
    have harr' : normaliseBody { b with price := p, price_cents := pc }
        = (e :: rest).filterMap
            (fun oe => oe.bind (entryRow (mkCtx { b with price := p, price_cents := pc }))) := by
      unfold normaliseBody
      rw [hs']
    constructor
    · rw [harr, harr']
      rfl
    · intro hall
      have h0 : normaliseBody b = [] := by
        rw [harr]
        exact List.filterMap_eq_nil_iff.mpr hall
      refine ⟨h0, ?_⟩
      unfold postStatus
      rw [if_pos h0]

/-- Payload with a non-empty `submissions` array whose single entry has no
usable price, next to a perfectly valid legacy grade/mills pair. -/
def wBodyArrayUnusable : Body :=
  ⟨IdField.missing, none, none, none, none,
    some [some ⟨some "87", NumField.nonNum, NumField.nonNum⟩],
    some "87", NumField.num (JSNum.fin 4499), NumField.missing⟩

/-- Witness for C10: with every array entry unusable the normaliser returns
no rows and the endpoint answers 400, even though the legacy pair alone
would have produced a row. -/
theorem submissions_array_no_legacy_fallback_witness :
    normaliseBody wBodyArrayUnusable = [] ∧ postStatus wBodyArrayUnusable = 400 :=
  (submissions_array_no_legacy_fallback wBodyArrayUnusable
      [some ⟨some "87", NumField.nonNum, NumField.nonNum⟩]
      NumField.missing NumField.missing rfl (by decide)).2 (by decide)

/-! ## Claim C5 -/

/-- Claim C5: a station that already has both coordinates is returned
unchanged, with no external geocoding call and no storage write, by both
revisions of the `ensureStationCoords` cache-filler. -/
theorem geocode_skip_when_coords_present :
    ∀ (s : Station) (lk0 : String → Option Coords) (lk1 : String → ExtCall (Option Coords))
      (p : ExtCall Unit) (a b : ℚ), s.latitude = some a → s.longitude = some b →
      ensureStationCoords_v0 lk0 p s = ⟨s, none, false⟩
      ∧ ensureStationCoords_v1 lk1 p s = ⟨s, none, false⟩ := by
  intro s lk0 lk1 p a b ha hb
  have hc : s.latitude.isSome ∧ s.longitude.isSome := by simp [ha, hb]
  constructor
  · unfold ensureStationCoords_v0
    rw [if_pos hc]
  · unfold ensureStationCoords_v1
    rw [if_pos hc]

/-- A station that already has coordinates. -/
def wCoordStation : Station := ⟨7, "Done", none, none, none, none, some 1, some 2, some false⟩

/-- A geocoder stub that always fails to find coordinates. -/
def lkNone0 : String → Option Coords := fun _ => none

/-- A throwing-capable geocoder stub that always returns no result. -/
def lkNone1 : String → ExtCall (Option Coords) := fun _ => ExtCall.ok none

/-- Witness for C5 at a concrete coordinate-bearing station. -/
theorem geocode_skip_when_coords_present_witness :
    ensureStationCoords_v0 lkNone0 (ExtCall.ok ()) wCoordStation = ⟨wCoordStation, none, false⟩
    ∧ ensureStationCoords_v1 lkNone1 (ExtCall.ok ()) wCoordStation
      = ⟨wCoordStation, none, false⟩ :=
  geocode_skip_when_coords_present wCoordStation lkNone0 lkNone1 (ExtCall.ok ()) 1 2 rfl rfl

/-! ## Claim C4 -/

/-- Claim C4 (amended): when the external lookup succeeds, the first
cache-filler revision (separate try/catch around the DB write) returns the
enriched station whatever the persistence outcome; the later revisions (one
try/catch around lookup and write together) return the station *unchanged*
when the write throws — the failure is still absorbed, but the in-memory
enrichment is lost, contrary to the original claim (see counterexample). -/
theorem geocode_persist_failure_behaviour :
    ∀ (s : Station) (lk0 : String → Option Coords)
      (lk1 : String → ExtCall (Option Coords)) (c : Coords),
      ¬(s.latitude.isSome ∧ s.longitude.isSome) → addressParts s ≠ [] →
      lk0 (String.intercalate ", " (addressParts s)) = some c →
      lk1 (String.intercalate ", " (addressParts s)) = ExtCall.ok (some c) →
      ((∀ p, ensureStationCoords_v0 lk0 p s =
          ⟨{ s with latitude := some c.lat, longitude := some c.lng },
            some (String.intercalate ", " (addressParts s)), true⟩)
       ∧ ensureStationCoords_v1 lk1 ExtCall.exn s =
          ⟨s, some (String.intercalate ", " (addressParts s)), true⟩
       ∧ ensureStationCoords_v1 lk1 (ExtCall.ok ()) s =
          ⟨{ s with latitude := some c.lat, longitude := some c.lng },
            some (String.intercalate ", " (addressParts s)), true⟩) := by
  intro s lk0 lk1 c hco hne h0 h1
  refine ⟨?_, ?_, ?_⟩
  · intro p
    unfold ensureStationCoords_v0
    rw [if_neg hco, if_neg hne]
    simp only [h0]
  · unfold ensureStationCoords_v1
    rw [if_neg hco, if_neg hne]
    simp only [h1]
  · unfold ensureStationCoords_v1
    rw [if_neg hco, if_neg hne]
    simp only [h1]

/-- A station with an address but no coordinates. -/
def s4 : Station := ⟨1, "Corner Stop", none, some "1 Main St", none, none, none, none, none⟩

/-- A geocoder stub that finds coordinates (1, 2) for every address. -/
def geocodeOk : String → ExtCall (Option Coords) := fun _ => ExtCall.ok (some ⟨1, 2⟩)

/-- The `Option`-style variant of `geocodeOk`. -/
def geocodeOk0 : String → Option Coords := fun _ => some ⟨1, 2⟩

/-- Claim C4 counterexample: in the later cache-filler revision, a successful
lookup followed by a failing DB write returns the station *without* the
discovered coordinates (latitude still null), not the enriched station the
claim promises; with a successful write the same call does enrich, isolating
the persistence failure as the cause. -/
theorem geocode_persist_failure_counterexample :
    ensureStationCoords_v1 geocodeOk ExtCall.exn s4 = ⟨s4, some "1 Main St", true⟩
    ∧ (ensureStationCoords_v1 geocodeOk ExtCall.exn s4).station.latitude = none
    ∧ geocodeOk "1 Main St" = ExtCall.ok (some ⟨1, 2⟩)
    ∧ (ensureStationCoords_v1 geocodeOk (ExtCall.ok ()) s4).station.latitude = some 1 :=
  ⟨by decide, by decide, by decide, by decide⟩

/-- Witness for C4 at a concrete station and geocoder. -/
theorem geocode_persist_failure_witness :
    ensureStationCoords_v0 geocodeOk0 ExtCall.exn s4 =
      ⟨{ s4 with latitude := some 1, longitude := some 2 },
        some (String.intercalate ", " (addressParts s4)), true⟩
    ∧ ensureStationCoords_v1 geocodeOk ExtCall.exn s4 =
      ⟨s4, some (String.intercalate ", " (addressParts s4)), true⟩ := by
  have h := geocode_persist_failure_behaviour s4 geocodeOk0 geocodeOk ⟨1, 2⟩
    (by decide) (by decide) rfl rfl
  exact ⟨h.1 ExtCall.exn, h.2.1⟩

/-! ## Claim C6 -/

/-- Claim C6 (amended): the `ensureStationCoords` cache-filler joins
whichever of address, city, state are present and non-empty with `", "` and
sends exactly that string to the geocoder, returning the station unchanged
with no call when none are; the *inline* cache-filling step of the
src/stations.ts listing, however, geocodes only when all three parts are
present and non-empty (joining all three), and makes no call otherwise —
contrary to the original claim's join-whichever-present rule (see
counterexample). -/
theorem geocode_address_join :
    ∀ (s : Station) (lk : String → ExtCall (Option Coords)) (p : ExtCall Unit),
      s.latitude = none → s.longitude = none →
      ((addressParts s = [] → ensureStationCoords_v1 lk p s = ⟨s, none, false⟩)
       ∧ (addressParts s ≠ [] →
           (ensureStationCoords_v1 lk p s).lookupArg =
             some (String.intercalate ", " (addressParts s)))
       ∧ (∀ a b c, s.address = some a → s.city = some b → s.state = some c →
           a ≠ "" → b ≠ "" → c ≠ "" →
           (inlineGeocodeStep lk p s).lookupArg = some (a ++ ", " ++ b ++ ", " ++ c))
       ∧ ((s.address = none ∨ s.address = some "" ∨ s.city = none ∨ s.city = some "" ∨
            s.state = none ∨ s.state = some "") →
           inlineGeocodeStep lk p s = ⟨s, none, false⟩)) := by
  intro s lk p hlat hlng
  have hco : ¬(s.latitude.isSome ∧ s.longitude.isSome) := by simp [hlat]
  refine ⟨?_, ?_, ?_, ?_⟩
  · intro hemp
    unfold ensureStationCoords_v1
    rw [if_neg hco, if_pos hemp]
  · intro hne
    unfold ensureStationCoords_v1
    rw [if_neg hco, if_neg hne]
    cases hlk : lk (String.intercalate ", " (addressParts s)) with
    | exn => simp only [hlk]
    | ok o =>
      cases o with
      | none => simp only [hlk]
      | some c =>
        cases p with
        | exn => simp only [hlk]
        | ok u => simp only [hlk]
  · intro a b c ha hb hc ha' hb' hc'
    unfold inlineGeocodeStep
    rw [ha, hb, hc]
    dsimp only
    rw [if_pos ⟨hlat, hlng, ha', hb', hc'⟩]
    cases hlk : lk (a ++ ", " ++ b ++ ", " ++ c) with
    | exn => simp only [hlk]
    | ok o =>
      cases o with
      | none => simp only [hlk]
      | some co => simp only [hlk]
  · intro hdisj
    unfold inlineGeocodeStep
    cases hA : s.address with
    | none => rfl
    | some a =>
      cases hB : s.city with
      | none => rfl
      | some b =>
        cases hC : s.state with
        | none => rfl
        | some c =>
          dsimp only
          rw [if_neg ?_]
          rintro ⟨_, _, h3, h4, h5⟩
          rcases hdisj with h | h | h | h | h | h
          · rw [hA] at h; cases h
          · rw [hA] at h; injection h with h; exact h3 h
          · rw [hB] at h; cases h
          · rw [hB] at h; injection h with h; exact h4 h
          · rw [hC] at h; cases h
          · rw [hC] at h; injection h with h; exact h5 h

/-- A station with address and city present but no state and no
coordinates. -/
def s6 : Station := ⟨2, "Two Parts", none, some "1 Main St", some "Reno", none, none, none, none⟩

/-- Claim C6 counterexample: for a station with address and city present but
state missing, the claimed behaviour (join the present parts, geocode
"1 Main St, Reno") is what `ensureStationCoords` does; the inline
cache-filling step of the listing makes *no* geocoding call at all and
returns the station unchanged, because it requires all three parts. -/
theorem geocode_address_join_counterexample :
    inlineGeocodeStep geocodeOk (ExtCall.ok ()) s6 = ⟨s6, none, false⟩
    ∧ addressParts s6 = ["1 Main St", "Reno"]
    ∧ (ensureStationCoords_v1 geocodeOk (ExtCall.ok ()) s6).lookupArg
      = some "1 Main St, Reno"
    ∧ s6.latitude = none ∧ s6.longitude = none :=
  ⟨by decide, by decide, by decide, by decide, by decide⟩

/-- A station with no address parts at all. -/
def sNoAddr : Station := ⟨3, "Nowhere", none, none, none, none, none, none, none⟩

/-- A station with all three address parts. -/
def sFull : Station := ⟨4, "Full", none, some "5 Oak Ave", some "Reno", some "NV", none, none, none⟩

/-- Witness for C6: all four conjuncts at concrete stations. -/
theorem geocode_address_join_witness :
    ensureStationCoords_v1 geocodeOk (ExtCall.ok ()) sNoAddr = ⟨sNoAddr, none, false⟩
    ∧ (ensureStationCoords_v1 geocodeOk (ExtCall.ok ()) s6).lookupArg
      = some (String.intercalate ", " (addressParts s6))
    ∧ (inlineGeocodeStep geocodeOk (ExtCall.ok ()) sFull).lookupArg
      = some ("5 Oak Ave" ++ ", " ++ "Reno" ++ ", " ++ "NV")
    ∧ inlineGeocodeStep geocodeOk (ExtCall.ok ()) sNoAddr = ⟨sNoAddr, none, false⟩ :=
  ⟨(geocode_address_join sNoAddr geocodeOk (ExtCall.ok ()) rfl rfl).1 rfl,
   (geocode_address_join s6 geocodeOk (ExtCall.ok ()) rfl rfl).2.1 (by decide),
   (geocode_address_join sFull geocodeOk (ExtCall.ok ()) rfl rfl).2.2.1
     "5 Oak Ave" "Reno" "NV" rfl rfl rfl (by decide) (by decide) (by decide),
   (geocode_address_join sNoAddr geocodeOk (ExtCall.ok ()) rfl rfl).2.2.2 (Or.inl rfl)⟩

/-! ## Claim C7 -/

/-- Claim C7 (amended): the routes/stations.ts listing (`ORDER BY is_home
DESC, name ASC`) puts the unique home-flagged station first and the rest in
name order, provided every station's home flag is set (a NULL flag would
sort *before* the home station under Postgres `DESC NULLS FIRST`); the
src/stations.ts listing instead orders purely by ascending id and does not
put the home station first (see counterexample). -/
theorem listing_home_first_alphabetical :
    ∀ (l : List Station) (h : Station),
      h ∈ l → h.is_home = some true →
      (∀ s ∈ l, s.is_home = some true ∨ s.is_home = some false) →
      l.countP (fun s => decide (s.is_home = some true)) = 1 →
      (List.Perm (listStationsOrdered l) l
       ∧ (listStationsOrdered l).head? = some h
       ∧ List.Sorted (fun a b : Station => a.name.data ≤ b.name.data)
           (listStationsOrdered l).tail) := by
  intro l h hmem hh hall hcount
  have hperm : List.Perm (listStationsOrdered l) l := List.perm_insertionSort _ _
  have hsorted : List.Sorted stationLe (listStationsOrdered l) := List.sorted_insertionSort _ _
  refine ⟨hperm, ?_⟩
  cases hL : listStationsOrdered l with
  | nil =>
    exfalso
    have hmm : h ∈ listStationsOrdered l := hperm.mem_iff.mpr hmem
    rw [hL] at hmm
    cases hmm
  | cons x t =>
    have hperm' : List.Perm (x :: t) l := hL ▸ hperm
    have hsorted' : List.Sorted stationLe (x :: t) := hL ▸ hsorted
    have hmem' : h ∈ x :: t := hperm'.mem_iff.mpr hmem
    have hx : ∀ b ∈ t, stationLe x b := (List.sorted_cons.mp hsorted').1
    have hcount' : (x :: t).countP (fun s => decide (s.is_home = some true)) = 1 := by
      rw [hperm'.countP_eq]; exact hcount
    have hrankh : homeRank h.is_home = 1 := by rw [hh]; rfl
    have hxhome : x.is_home = some true := by
      rcases List.mem_cons.mp hmem' with rfl | hht
      · exact hh
      · have hle := hx h hht
        unfold stationLe at hle
        rw [Prod.Lex.le_iff] at hle
        have hrank : homeRank x.is_home ≤ 1 := by
          rcases hle with hlt | ⟨heq, _⟩
          · have h1 : homeRank x.is_home < homeRank h.is_home := hlt
            omega
          · have h1 : homeRank x.is_home = homeRank h.is_home := heq
            omega
        have hxl : x ∈ l := hperm'.subset (List.mem_cons_self x t)
        rcases hall x hxl with h1 | h2
        · exact h1
        · rw [h2] at hrank
          exact absurd hrank (by decide)
    have htcount : t.countP (fun s => decide (s.is_home = some true)) = 0 := by
      rw [List.countP_cons] at hcount'
      simp [hxhome] at hcount'
      exact List.countP_eq_zero.mpr (fun a ha' => by simpa using hcount' a ha')
    have hnot_t : ∀ s ∈ t, s.is_home = some false := by
      intro s hst
      rcases hall s (hperm'.subset (List.mem_cons_of_mem _ hst)) with h1 | h2
      · exfalso
        have hzero := List.countP_eq_zero.mp htcount s hst
        simp [h1] at hzero
      · exact h2
    have hxh : x = h := by
      rcases List.mem_cons.mp hmem' with rfl | hht
      · rfl
      · exfalso
        have hcontra := hnot_t h hht
        rw [hh] at hcontra
        simp at hcontra
    subst hxh
    constructor
    · rfl
    · show List.Sorted _ t
      have hsorted_t : List.Sorted stationLe t := (List.sorted_cons.mp hsorted').2
      refine List.Pairwise.imp_of_mem ?_ hsorted_t
      intro a b ha hb hab
      unfold stationLe at hab
      rw [Prod.Lex.le_iff] at hab
      have hra : homeRank a.is_home = 2 := by rw [hnot_t a ha]; rfl
      have hrb : homeRank b.is_home = 2 := by rw [hnot_t b hb]; rfl
      rcases hab with hlt | ⟨_, hle⟩
      · have h1 : homeRank a.is_home < homeRank b.is_home := hlt
        omega
      · exact hle

/-- A non-home station whose name sorts last alphabetically. -/
def stZebra : Station := ⟨1, "Zebra", none, none, none, none, none, none, some false⟩

/-- The home-flagged station, named to sort first alphabetically. -/
def stAlpha : Station := ⟨2, "Alpha", none, none, none, none, none, none, some true⟩

/-- Claim C7 counterexample: the src/stations.ts listing orders by ascending
id, so the non-home station Zebra (id 1) comes before the home-flagged
station Alpha (id 2) — the home station is not first (nor is the order
alphabetical). -/
theorem listing_order_counterexample :
    listStationsById [stZebra, stAlpha] = [stZebra, stAlpha]
    ∧ stAlpha.is_home = some true ∧ stZebra.is_home = some false
    ∧ (listStationsById [stZebra, stAlpha]).head? = some stZebra
    ∧ stAlpha.name.data < stZebra.name.data :=
  ⟨by decide, by decide, by decide, by decide, by decide⟩

/-- Witness for C7 on a concrete two-station list. -/
theorem listing_order_witness :
    List.Perm (listStationsOrdered [stZebra, stAlpha]) [stZebra, stAlpha]
    ∧ (listStationsOrdered [stZebra, stAlpha]).head? = some stAlpha
    ∧ List.Sorted (fun a b : Station => a.name.data ≤ b.name.data)
        (listStationsOrdered [stZebra, stAlpha]).tail :=
  listing_home_first_alphabetical [stZebra, stAlpha] stAlpha (by decide) rfl
    (by decide) (by decide)

end Tarcart
